import Mathlib

/-!
Verification of the interaction-ballot core of the pabutools repository.

The development shallowly embeds the data model and operations of
  pabutools/election/ballot/interactionballot.py
  pabutools/election/profile/interactionprofile.py
  pabutools/election/satisfaction/interactionsatisfcation.py
Python dictionaries are modelled as association lists preserving insertion
order (first match wins on lookup, new keys are appended), numeric scores as
integers, projects as natural-number identities, and fallible indexing as
Option-valued access.
-/

/-- Projects are external opaque hashable identities; we model them as
natural numbers. -/
abbrev Project : Type := Nat

/-- An interaction group is a frozenset of projects; we model it as a
duplicate-free list (the iteration order of the frozenset). -/
abbrev InteractionGroup : Type := List Project

/-- A per-group marginal-utility vector, indexed by funded count. -/
abbrev UtilityVector : Type := List Int

/-- An interaction ballot maps each project to the pair of its group and the
group's utility vector; Python dict modelled as an insertion-ordered
association list. -/
abbrev InteractionBallot : Type := List (Project × (InteractionGroup × UtilityVector))

/-- Dictionary lookup on a ballot: first entry whose key equals the project. -/
def ballotLookup : InteractionBallot → Project → Option (InteractionGroup × UtilityVector)
  | [], _ => none
  | e :: rest, p => if e.1 = p then some e.2 else ballotLookup rest p

/-- Membership test, modelling the Python expression project in ballot. -/
def ballotMem (b : InteractionBallot) (p : Project) : Bool :=
  (ballotLookup b p).isSome

/-- The key tuple of the ballot in insertion order, modelling dict.keys(). -/
def ballotKeys (b : InteractionBallot) : List Project :=
  b.map Prod.fst

/-- Cardinality of the set intersection of a group with a bundle, modelling
the Python expression len(project_group and-set set(bundle)). -/
def interCount (g : InteractionGroup) (bundle : List Project) : Nat :=
  ((g.filter fun p => decide (p ∈ bundle)).dedup).length

/-- Error message raised by validate_addition in InteractionBallot. -/
def additionErrorMessage : String :=
  "Project already appear in one of the groups"

/-- Embedding of InteractionBallot.__setitem__: validate that no project of
the group is already recorded, then record the pair (group, utilities) under
every project of the group. The validation runs before any mutation, so a
failing call is modelled by an error result that carries no new ballot. -/
def InteractionBallot.setItem (self : InteractionBallot) (project_group : InteractionGroup)
    (group_utils : UtilityVector) : Except String InteractionBallot :=
  if project_group.all fun p => !(ballotMem self p) then
    Except.ok (self ++ project_group.map fun p => (p, (project_group, group_utils)))
  else
    Except.error additionErrorMessage

/-- Embedding of InteractionBallot.complete: for every project of the
reference collection that is not yet a key, append a private singleton group
with the one-element default-score vector. -/
def InteractionBallot.complete (self : InteractionBallot) (projects : List Project)
    (default_score : Int) : InteractionBallot :=
  projects.foldl
    (fun acc p => if ballotMem acc p then acc else acc ++ [(p, ([p], [default_score]))])
    self

/-- A frozen interaction ballot: an immutable snapshot of the entry list,
modelling FrozenInteractionBallot(dict-copy). -/
structure FrozenInteractionBallot where
  entries : List (Project × (InteractionGroup × UtilityVector))

/-- Embedding of InteractionBallot.frozen: the frozen copy holds exactly the
same entries in the same insertion order. -/
def InteractionBallot.frozen (self : InteractionBallot) : FrozenInteractionBallot :=
  FrozenInteractionBallot.mk self

/-- Embedding of FrozenInteractionBallot.__hash__, which hashes the tuple of
keys only. Python's hash of a tuple is an unspecified function determined by
that tuple, so we model the hash value as the key tuple itself: two frozen
ballots receive equal hashes exactly when the modelled hash values agree. -/
def FrozenInteractionBallot.hashValue (self : FrozenInteractionBallot) : List Project :=
  self.entries.map Prod.fst

/-- Embedding of project_interaction_cardinality: the marginal utility of the
project at the funded count of its group, an out-of-range index being the
Python IndexError, modelled as none; a project absent from the ballot scores
zero. The instance and profile parameters of the source are unused there and
omitted here. -/
def project_interaction_cardinality (ballot : InteractionBallot) (project : Project)
    (bundle : List Project) : Option Int :=
  match ballotLookup ballot project with
  | some (g, u) => u[interCount g bundle]?
  | none => some 0

/-- Association-list lookup keyed by interaction groups, modelling the
dictionaries counts and group_to_util of outcome_interaction_cardinality. -/
def assocGet {α : Type} : List (InteractionGroup × α) → InteractionGroup → Option α
  | [], _ => none
  | e :: rest, g => if e.1 = g then some e.2 else assocGet rest g

/-- Increment of the counts dictionary: counts of g becomes its previous
value (default zero) plus one, keeping dict insertion order. -/
def assocBump : List (InteractionGroup × Nat) → InteractionGroup → List (InteractionGroup × Nat)
  | [], g => [(g, 1)]
  | e :: rest, g => if e.1 = g then (e.1, e.2 + 1) :: rest else e :: assocBump rest g

/-- Update of the group_to_util dictionary, keeping dict insertion order. -/
def assocPut : List (InteractionGroup × UtilityVector) → InteractionGroup → UtilityVector →
    List (InteractionGroup × UtilityVector)
  | [], g, u => [(g, u)]
  | e :: rest, g, u => if e.1 = g then (e.1, u) :: rest else e :: assocPut rest g u

/-- The first loop of outcome_interaction_cardinality: walk the bundle and
build the per-group counts and the group-to-utility map, skipping projects
absent from the ballot. -/
def interactionAccum (ballot : InteractionBallot) (bundle : List Project) :
    List (InteractionGroup × Nat) × List (InteractionGroup × UtilityVector) :=
  bundle.foldl
    (fun acc p =>
      match ballotLookup ballot p with
      | none => acc
      | some (g, u) => (assocBump acc.1 g, assocPut acc.2 g u))
    ([], [])

/-- Embedding of outcome_interaction_cardinality: sum, over the counts
entries, of the sum of the first count entries of the group's utility vector.
Python list slicing never fails, hence List.take; the group-to-utility lookup
is proved to always succeed for counted groups, so the default never fires. -/
def outcome_interaction_cardinality (ballot : InteractionBallot) (bundle : List Project) : Int :=
  ((interactionAccum ballot bundle).1.foldl
    (fun s e =>
      s + (((assocGet (interactionAccum ballot bundle).2 e.1).getD []).take e.2).sum)
    0)

/-- First-occurrence deduplication, modelling the key order of a Python dict
populated by repeated insertions. -/
def firstDedup {α : Type} [DecidableEq α] (l : List α) : List α :=
  l.foldl (fun acc a => if a ∈ acc then acc else acc ++ [a]) []

/-- The (group, utilities) pairs of the bundle projects that appear in the
ballot, in bundle order and with multiplicity. -/
def touchedPairs (ballot : InteractionBallot) (bundle : List Project) :
    List (InteractionGroup × UtilityVector) :=
  bundle.filterMap fun p => ballotLookup ballot p

/-- The specification formula for the Interaction-Cardinality bundle score,
written from the spec text: for every group touched by the bundle that
appears in the ballot, sum the first count entries of the group's vector,
where count is the cardinality of the intersection of group and bundle. -/
def specInteractionBundleSat (ballot : InteractionBallot) (bundle : List Project) : Int :=
  ((firstDedup (touchedPairs ballot bundle)).map
    fun e => (e.2.take (interCount e.1 bundle)).sum).sum

/-- Well-formedness invariant every Python-built InteractionBallot enjoys:
keys are pairwise distinct, every key belongs to its recorded group, groups
are duplicate-free sets, and every member of a recorded group is itself a key
mapped to the same shared (group, utilities) pair. -/
def WellFormedBallot (b : InteractionBallot) : Prop :=
  (ballotKeys b).Nodup ∧
    ∀ e ∈ b, e.1 ∈ e.2.1 ∧ e.2.1.Nodup ∧ ∀ q ∈ e.2.1, ballotLookup b q = some e.2

instance (b : InteractionBallot) : Decidable (WellFormedBallot b) := by
  unfold WellFormedBallot
  infer_instance

/-- Per-ballot contribution used by the specification of total_score. -/
def ballotContribution (project : Project) (bundle : List Project)
    (b : InteractionBallot) : Int :=
  match ballotLookup b project with
  | none => 0
  | some (g, u) => (u[interCount g bundle]?).getD 0

/-- The profile of interaction ballots together with the metadata carried by
InteractionProfile: the instance, the validation flag, the ballot type tag
and the four legality bounds. -/
structure InteractionProfile where
  ballots : List InteractionBallot
  inst : List Project
  ballot_validation : Bool
  ballot_type : String
  legal_min_length : Option Nat
  legal_max_length : Option Nat
  legal_min_score : Option Int
  legal_max_score : Option Int

/-- Helper for total_score: iterate the ballots, adding the marginal utility
of the project at the funded count of its group for every ballot containing
the project; an out-of-range index is the Python IndexError, modelled by a
none result for the whole computation. -/
def totalScoreAux : List InteractionBallot → Project → List Project → Option Int
  | [], _, _ => some 0
  | b :: rest, p, bundle =>
    match ballotLookup b p with
    | none => totalScoreAux rest p bundle
    | some (g, u) =>
      match u[interCount g bundle]? with
      | none => none
      | some v => (totalScoreAux rest p bundle).map fun s => v + s

/-- Embedding of AbstractInteractionProfile.total_score. -/
def InteractionProfile.total_score (self : InteractionProfile) (project : Project)
    (bundle : List Project) : Option Int :=
  totalScoreAux self.ballots project bundle

/-- Error message of InteractionProfile.sort. -/
def sortErrorMessage : String :=
  "Cardinal profiles cannot be sorted as cardinal ballots do not support comparison"

/-- Embedding of InteractionProfile.sort: raises unconditionally, before
touching the list, whatever key and reverse arguments are supplied. -/
def InteractionProfile.sort (self : InteractionProfile)
    (key : Option (InteractionBallot → Int)) (reverse : Option Bool) :
    Except String InteractionProfile :=
  Except.error sortErrorMessage

/-- Discriminator for Except results. -/
def exceptIsOk {α : Type} : Except String α → Bool
  | Except.ok _ => true
  | Except.error _ => false

/-- Raw result of a Python list operation before the wrapper of
_wrap_methods inspects it: a plain list, a list iterator (what the built-in
list reversal returns), or the None of an in-place method. -/
inductive SeqResult where
  | list (l : List InteractionBallot)
  | iterator (l : List InteractionBallot)
  | noneValue

/-- Result after the wrapper: a re-wrapped profile when the raw result was a
plain list, otherwise the raw result passed through unchanged. -/
inductive WrappedResult where
  | profile (p : InteractionProfile)
  | iterator (l : List InteractionBallot)
  | noneValue

/-- Embedding of the closure installed by InteractionProfile._wrap_methods:
a plain-list result is re-wrapped into the profile type carrying the
instance, the validation flag, the ballot type and the four legality bounds
of the receiver; any other result is returned as is. -/
def wrapResult (self : InteractionProfile) : SeqResult → WrappedResult
  | SeqResult.list l => WrappedResult.profile { self with ballots := l }
  | SeqResult.iterator l => WrappedResult.iterator l
  | SeqResult.noneValue => WrappedResult.noneValue

/-- Concatenation through the wrapped list.__add__. -/
def InteractionProfile.add (self other : InteractionProfile) : WrappedResult :=
  wrapResult self (SeqResult.list (self.ballots ++ other.ballots))

/-- Repetition through the wrapped list.__mul__. -/
def InteractionProfile.mul (self : InteractionProfile) (n : Nat) : WrappedResult :=
  wrapResult self (SeqResult.list (List.replicate n self.ballots).flatten)

/-- Copy through the wrapped list.copy. -/
def InteractionProfile.copy (self : InteractionProfile) : WrappedResult :=
  wrapResult self (SeqResult.list self.ballots)

/-- Index-slicing through the wrapped list.__getitem__ on a slice argument. -/
def InteractionProfile.getitemSlice (self : InteractionProfile) (start stop : Nat) :
    WrappedResult :=
  wrapResult self (SeqResult.list ((self.ballots.drop start).take (stop - start)))

/-- Reversal through the wrapped list.__reversed__; the built-in returns a
list iterator, not a list, so the wrapper's isinstance-list test fails and
the iterator passes through unwrapped. -/
def InteractionProfile.reversedOp (self : InteractionProfile) : WrappedResult :=
  wrapResult self (SeqResult.iterator self.ballots.reverse)

/-- Predicate telling whether a wrapped result is a re-wrapped profile. -/
def isProfileResult : WrappedResult → Bool
  | WrappedResult.profile _ => true
  | _ => false

/-- Metadata agreement between two profiles: same instance, validation flag,
ballot type and the four legality bounds. -/
def sameMetadata (r p : InteractionProfile) : Prop :=
  r.inst = p.inst ∧ r.ballot_validation = p.ballot_validation ∧
    r.ballot_type = p.ballot_type ∧
    r.legal_min_length = p.legal_min_length ∧ r.legal_max_length = p.legal_max_length ∧
    r.legal_min_score = p.legal_min_score ∧ r.legal_max_score = p.legal_max_score

/-- Error message of the rule-invocation guard. -/
def configurationErrorMessage : String :=
  "ConfigurationError: empty instance or profile"

/-- Modelled from the spec: the allocation rules themselves live outside the
provided sources (only their tests do), so we model the shared
rule-invocation contract of section 4.4, whose guard rejects an empty
Instance or Profile with a configuration error instead of silently returning
an empty allocation; a non-degenerate invocation delegates to the concrete
selection algorithm of the rule. -/
def rule_invocation (instance_projects : List Project) (profile : List InteractionBallot)
    (select : List Project → List InteractionBallot → List Project) :
    Except String (List Project) :=
  match instance_projects, profile with
  | [], _ => Except.error configurationErrorMessage
  | _, [] => Except.error configurationErrorMessage
  | _, _ => Except.ok (select instance_projects profile)

/-- Decidable in-range condition used by the total_score specification: the
ballot either lacks the project or its vector is long enough for the funded
count of the bundle in the project's group. -/
def ballotInRange (p : Project) (B : List Project) (b : InteractionBallot) : Bool :=
  match ballotLookup b p with
  | none => true
  | some (g, u) => decide (interCount g B < u.length)

lemma ballotLookup_append (b1 b2 : InteractionBallot) (p : Project) :
    ballotLookup (b1 ++ b2) p =
      match ballotLookup b1 p with
      | some v => some v
      | none => ballotLookup b2 p := by
  induction b1 with
  | nil => simp [ballotLookup]
  | cons e rest ih =>
    by_cases h : e.1 = p
    · simp [ballotLookup, h]
    · simp [ballotLookup, h, ih]

lemma ballotLookup_map_const (g : List Project) (v : InteractionGroup × UtilityVector)
    (p : Project) (hp : p ∈ g) :
    ballotLookup (g.map fun q => (q, v)) p = some v := by
  induction g with
  | nil => cases hp
  | cons q rest ih =>
    by_cases h : q = p
    · simp [ballotLookup, h]
    · rcases List.mem_cons.mp hp with hp2 | hp2
      · exact absurd hp2.symm h
      · simp [ballotLookup, h, ih hp2]

lemma ballotMem_false_iff (b : InteractionBallot) (p : Project) :
    ballotMem b p = false ↔ ballotLookup b p = none := by
  unfold ballotMem
  cases h : ballotLookup b p <;> simp

lemma ballotLookup_mem (b : InteractionBallot) (p : Project)
    (v : InteractionGroup × UtilityVector) (h : ballotLookup b p = some v) : (p, v) ∈ b := by
  induction b with
  | nil => simp [ballotLookup] at h
  | cons e rest ih =>
    by_cases he : e.1 = p
    · simp [ballotLookup, he] at h
      have hev : e = (p, v) := by
        calc e = (e.1, e.2) := rfl
          _ = (p, v) := by rw [he, h]
      rw [← hev]
      exact List.mem_cons_self e rest
    · simp [ballotLookup, he] at h
      exact List.mem_cons_of_mem _ (ih h)

lemma mem_of_lookup (b : InteractionBallot) (q : Project)
    (v : InteractionGroup × UtilityVector) (h : ballotLookup b q = some v) :
    ballotMem b q = true := by
  unfold ballotMem
  rw [h]
  rfl

lemma complete_preserves (d : Int) (P : List Project) :
    ∀ (b : InteractionBallot) (q : Project) (v : InteractionGroup × UtilityVector),
      ballotLookup b q = some v →
      ballotLookup (InteractionBallot.complete b P d) q = some v := by
  induction P with
  | nil => intro b q v h; exact h
  | cons p P ih =>
    intro b q v h
    show ballotLookup
      (InteractionBallot.complete
        (if ballotMem b p then b else b ++ [(p, ([p], [d]))]) P d) q = some v
    by_cases hm : ballotMem b p
    · rw [if_pos hm]; exact ih b q v h
    · rw [if_neg hm]
      refine ih _ q v ?_
      rw [ballotLookup_append, h]

lemma complete_mem (d : Int) (P : List Project) (p : Project) (hp : p ∈ P) :
    ∀ b : InteractionBallot, ballotMem (InteractionBallot.complete b P d) p = true := by
  induction P with
  | nil => cases hp
  | cons q P ih =>
    intro b
    show ballotMem
      (InteractionBallot.complete
        (if ballotMem b q then b else b ++ [(q, ([q], [d]))]) P d) p = true
    rcases List.mem_cons.mp hp with hp2 | hp2
    · subst hp2
      by_cases hm : ballotMem b p
      · rw [if_pos hm]
        unfold ballotMem at hm
        cases hv : ballotLookup b p with
        | none => rw [hv] at hm; simp at hm
        | some v => exact mem_of_lookup _ p v (complete_preserves d P b p v hv)
      · rw [if_neg hm]
        have hnone : ballotLookup b p = none :=
          (ballotMem_false_iff b p).mp (by simpa using hm)
        have hlook : ballotLookup (b ++ [(p, ([p], [d]))]) p = some (([p], [d])) := by
          rw [ballotLookup_append, hnone]
          simp [ballotLookup]
        exact mem_of_lookup _ p _ (complete_preserves d P _ p _ hlook)
    · by_cases hm : ballotMem b q
      · rw [if_pos hm]; exact ih hp2 b
      · rw [if_neg hm]; exact ih hp2 _

lemma complete_new (d : Int) (P : List Project) (p : Project) (hp : p ∈ P) :
    ∀ b : InteractionBallot, ballotMem b p = false →
      ballotLookup (InteractionBallot.complete b P d) p = some ([p], [d]) := by
  induction P with
  | nil => cases hp
  | cons q P ih =>
    intro b hb
    have hnone : ballotLookup b p = none := (ballotMem_false_iff b p).mp hb
    show ballotLookup
      (InteractionBallot.complete
        (if ballotMem b q then b else b ++ [(q, ([q], [d]))]) P d) p = some ([p], [d])
    by_cases hqp : q = p
    · subst hqp
      rw [if_neg (by simp [ballotMem, hnone])]
      refine complete_preserves d P _ q _ ?_
      rw [ballotLookup_append, hnone]
      simp [ballotLookup]
    · rcases List.mem_cons.mp hp with hp2 | hp2
      · exact absurd hp2.symm hqp
      · by_cases hm : ballotMem b q
        · rw [if_pos hm]; exact ih hp2 b hb
        · rw [if_neg hm]
          refine ih hp2 _ ?_
          rw [ballotMem_false_iff, ballotLookup_append, hnone]
          simp [ballotLookup, hqp]

lemma complete_already (d : Int) (P : List Project) :
    ∀ c : InteractionBallot, (∀ p ∈ P, ballotMem c p = true) →
      InteractionBallot.complete c P d = c := by
  induction P with
  | nil => intro c _; rfl
  | cons q P ih =>
    intro c hall
    show InteractionBallot.complete
      (if ballotMem c q then c else c ++ [(q, ([q], [d]))]) P d = c
    rw [if_pos (hall q (List.mem_cons_self q P))]
    exact ih c fun p hp => hall p (List.mem_cons_of_mem q hp)

/-- C5: after completing a ballot over a project collection with a default
score, every project of the collection is a key; previously assigned
projects keep their (group, utilities) pair; previously unassigned projects
of the collection are mapped to the private singleton group with the
one-element default vector; completing again changes nothing. -/
theorem interaction_ballot_complete_correct :
    ∀ (b : InteractionBallot) (P : List Project) (d : Int),
      (∀ p ∈ P, ballotMem (InteractionBallot.complete b P d) p = true)
      ∧ (∀ (q : Project) (v : InteractionGroup × UtilityVector),
          ballotLookup b q = some v →
          ballotLookup (InteractionBallot.complete b P d) q = some v)
      ∧ (∀ p ∈ P, ballotMem b p = false →
          ballotLookup (InteractionBallot.complete b P d) p = some ([p], [d]))
      ∧ InteractionBallot.complete (InteractionBallot.complete b P d) P d
          = InteractionBallot.complete b P d := by
  intro b P d
  refine ⟨fun p hp => complete_mem d P p hp b,
    fun q v hv => complete_preserves d P b q v hv,
    fun p hp hb => complete_new d P p hp b hb,
    complete_already d P _ fun p hp => complete_mem d P p hp b⟩

/-- Witness for C5 on a concrete ballot and project collection. -/
theorem interaction_ballot_complete_correct_witness :
    ballotMem
      (InteractionBallot.complete [(1, ([1, 2], [3, 4])), (2, ([1, 2], [3, 4]))] [1, 3] 7) 3
      = true
    ∧ ballotLookup
        (InteractionBallot.complete [(1, ([1, 2], [3, 4])), (2, ([1, 2], [3, 4]))] [1, 3] 7) 1
        = some ([1, 2], [3, 4])
    ∧ ballotLookup
        (InteractionBallot.complete [(1, ([1, 2], [3, 4])), (2, ([1, 2], [3, 4]))] [1, 3] 7) 3
        = some ([3], [7]) := by
  have h := interaction_ballot_complete_correct
    [(1, ([1, 2], [3, 4])), (2, ([1, 2], [3, 4]))] [1, 3] 7
  exact ⟨h.1 3 (by decide), h.2.1 1 ([1, 2], [3, 4]) (by decide),
    h.2.2.1 3 (by decide) (by decide)⟩

/-- C2 counterexample: a ballot assigning project 5 the singleton group with
the length-one vector (9). The bundle funding the whole group makes the
funded count equal to the vector length, so the index lookup fails (Python
IndexError), modelled by a none result: the project-level satisfaction is
not defined for every bundle. -/
theorem project_interaction_cardinality_counterexample :
    project_interaction_cardinality [(5, ([5], [9]))] 5 [5] = none := by
  decide

/-- C2 as amended: the project-level Interaction-Cardinality satisfaction is
defined and equals the vector entry at the funded count whenever that count
is below the vector length; a project absent from the ballot scores zero. -/
theorem project_interaction_cardinality_in_range :
    (∀ (b : InteractionBallot) (p : Project) (g : InteractionGroup)
        (u : UtilityVector) (B : List Project),
      ballotLookup b p = some (g, u) → interCount g B < u.length →
      ∃ v, u[interCount g B]? = some v ∧
        project_interaction_cardinality b p B = some v)
    ∧ ∀ (b : InteractionBallot) (p : Project) (B : List Project),
        ballotLookup b p = none → project_interaction_cardinality b p B = some 0 := by
  constructor
  · intro b p g u B hlook hlt
    refine ⟨u.get ⟨interCount g B, hlt⟩, ?_, ?_⟩
    · rw [List.get_eq_getElem]
      exact List.getElem?_eq_getElem hlt
    · unfold project_interaction_cardinality
      rw [hlook, List.get_eq_getElem]
      exact List.getElem?_eq_getElem hlt
  · intro b p B hlook
    unfold project_interaction_cardinality
    rw [hlook]

/-- Witness for the amended C2 on a concrete ballot, group and bundle. -/
theorem project_interaction_cardinality_in_range_witness :
    (∃ v, (([2, 3] : UtilityVector))[interCount [1, 2] [2]]? = some v ∧
      project_interaction_cardinality
        [(1, ([1, 2], [2, 3])), (2, ([1, 2], [2, 3]))] 1 [2] = some v)
    ∧ project_interaction_cardinality [(1, ([1, 2], [2, 3]))] 9 [] = some 0 := by
  exact ⟨project_interaction_cardinality_in_range.1
      [(1, ([1, 2], [2, 3])), (2, ([1, 2], [2, 3]))] 1 [1, 2] [2, 3] [2]
      (by decide) (by decide),
    project_interaction_cardinality_in_range.2 [(1, ([1, 2], [2, 3]))] 9 []
      (by decide)⟩

/-- C4: assigning a group whose projects partly appear in the ballot fails
with the validation error before any entry is written, the returned error
carrying no ballot, so the ballot passed in stands unchanged; assigning a
fresh group records the shared (group, utilities) pair under every project
of the group and keeps every previous entry intact. -/
theorem interaction_ballot_setitem_correct :
    ∀ (b : InteractionBallot) (g : InteractionGroup) (u : UtilityVector),
      ((∃ p ∈ g, ballotMem b p = true) →
        InteractionBallot.setItem b g u = Except.error additionErrorMessage)
      ∧ ((∀ p ∈ g, ballotMem b p = false) →
        InteractionBallot.setItem b g u
            = Except.ok (b ++ g.map fun p => (p, (g, u)))
          ∧ (∀ p ∈ g, ballotLookup (b ++ g.map fun q => (q, (g, u))) p = some (g, u))
          ∧ ∀ (q : Project) (v : InteractionGroup × UtilityVector),
              ballotLookup b q = some v →
              ballotLookup (b ++ g.map fun q2 => (q2, (g, u))) q = some v) := by
  intro b g u
  constructor
  · rintro ⟨p, hp, hmem⟩
    unfold InteractionBallot.setItem
    rw [if_neg]
    intro hall
    rw [List.all_eq_true] at hall
    have := hall p hp
    rw [hmem] at this
    simp at this
  · intro hall
    refine ⟨?_, ?_, ?_⟩
    · unfold InteractionBallot.setItem
      rw [if_pos]
      rw [List.all_eq_true]
      intro p hp
      rw [hall p hp]
      rfl
    · intro p hp
      have hnone : ballotLookup b p = none := (ballotMem_false_iff b p).mp (hall p hp)
      rw [ballotLookup_append, hnone]
      exact ballotLookup_map_const g (g, u) p hp
    · intro q v hv
      rw [ballotLookup_append, hv]

/-- Witness for C4: a conflicting assignment fails; a fresh assignment
records the pair for every group member. -/
theorem interaction_ballot_setitem_correct_witness :
    InteractionBallot.setItem [(1, ([1], [4]))] [1, 2] [7, 8]
        = Except.error additionErrorMessage
    ∧ InteractionBallot.setItem [(1, ([1], [4]))] [2, 3] [7, 8]
        = Except.ok ([(1, ([1], [4]))] ++ [2, 3].map fun p => (p, ([2, 3], [7, 8])))
    ∧ ballotLookup ([(1, ([1], [4]))] ++ [2, 3].map fun q => (q, ([2, 3], [7, 8]))) 2
        = some ([2, 3], [7, 8]) := by
  refine ⟨(interaction_ballot_setitem_correct [(1, ([1], [4]))] [1, 2] [7, 8]).1
      ⟨1, by decide, by decide⟩, ?_, ?_⟩
  · exact ((interaction_ballot_setitem_correct [(1, ([1], [4]))] [2, 3] [7, 8]).2
      (by decide)).1
  · exact ((interaction_ballot_setitem_correct [(1, ([1], [4]))] [2, 3] [7, 8]).2
      (by decide)).2.1 2 (by decide)

lemma totalScoreAux_eq (p : Project) (B : List Project) :
    ∀ l : List InteractionBallot, (∀ b ∈ l, ballotInRange p B b = true) →
      totalScoreAux l p B = some ((l.map fun b => ballotContribution p B b).sum) := by
  intro l
  induction l with
  | nil => intro _; rfl
  | cons b rest ih =>
    intro hall
    have hrest := ih fun x hx => hall x (List.mem_cons_of_mem b hx)
    have hb := hall b (List.mem_cons_self b rest)
    unfold totalScoreAux
    cases hv : ballotLookup b p with
    | none =>
      rw [hrest]
      simp [ballotContribution, hv]
    | some e =>
      obtain ⟨g, u⟩ := e
      unfold ballotInRange at hb
      rw [hv] at hb
      have hlt : interCount g B < u.length := of_decide_eq_true hb
      have hsome : u[interCount g B]? = some (u.get ⟨interCount g B, hlt⟩) := by
        rw [List.get_eq_getElem]
        exact List.getElem?_eq_getElem hlt
      simp [hsome, hrest, ballotContribution, hv]

/-- C3: whenever every ballot containing the project has a long-enough
vector, total_score sums, over exactly the ballots containing the project,
the group-vector entry at the funded count of bundle and group, a ballot not
containing the project contributing zero through ballotContribution. -/
theorem total_score_correct :
    ∀ (prof : InteractionProfile) (p : Project) (B : List Project),
      (∀ b ∈ prof.ballots, ballotInRange p B b = true) →
      InteractionProfile.total_score prof p B
        = some ((prof.ballots.map fun b => ballotContribution p B b).sum) := by
  intro prof p B hall
  exact totalScoreAux_eq p B prof.ballots hall

/-- Witness for C3 on a two-ballot profile, one ballot lacking the project. -/
theorem total_score_correct_witness :
    InteractionProfile.total_score
        (InteractionProfile.mk
          [[(1, ([1, 2], [2, 3])), (2, ([1, 2], [2, 3]))], [(3, ([3], [9]))]]
          [] true "InteractionBallot" none none none none) 1 [2]
      = some ((([[(1, ([1, 2], [2, 3])), (2, ([1, 2], [2, 3]))],
          [(3, ([3], [9]))]] : List InteractionBallot).map
            fun b => ballotContribution 1 [2] b).sum) := by
  exact total_score_correct
    (InteractionProfile.mk
      [[(1, ([1, 2], [2, 3])), (2, ([1, 2], [2, 3]))], [(3, ([3], [9]))]]
      [] true "InteractionBallot" none none none none) 1 [2] (by decide)

/-- C6: freezing a ballot preserves every (project, (group, utilities))
entry in insertion order, and two ballots with identical content in
identical key order produce frozen forms with equal hashes. -/
theorem frozen_ballot_preserves_and_hash :
    ∀ b b1 b2 : InteractionBallot,
      (InteractionBallot.frozen b).entries = b
      ∧ (∀ p : Project,
          ballotLookup (InteractionBallot.frozen b).entries p = ballotLookup b p)
      ∧ (ballotKeys b1 = ballotKeys b2 →
          (∀ p : Project, ballotLookup b1 p = ballotLookup b2 p) →
          FrozenInteractionBallot.hashValue (InteractionBallot.frozen b1)
            = FrozenInteractionBallot.hashValue (InteractionBallot.frozen b2)) := by
  intro b b1 b2
  refine ⟨rfl, fun p => rfl, fun hk _ => ?_⟩
  simpa [FrozenInteractionBallot.hashValue, InteractionBallot.frozen, ballotKeys] using hk

/-- Witness for C6 on two concretely equal-content ballots. -/
theorem frozen_ballot_preserves_and_hash_witness :
    (InteractionBallot.frozen [(1, ([1], [2])), (4, ([4], [6]))]).entries
        = [(1, ([1], [2])), (4, ([4], [6]))]
    ∧ FrozenInteractionBallot.hashValue
          (InteractionBallot.frozen [(1, ([1], [2])), (4, ([4], [6]))])
        = FrozenInteractionBallot.hashValue
          (InteractionBallot.frozen [(1, ([1], [2])), (4, ([4], [6]))]) := by
  have h := frozen_ballot_preserves_and_hash [(1, ([1], [2])), (4, ([4], [6]))]
    [(1, ([1], [2])), (4, ([4], [6]))] [(1, ([1], [2])), (4, ([4], [6]))]
  exact ⟨h.1, h.2.2 (by decide) fun p => rfl⟩

/-- C10: the hash of a frozen interaction ballot is computed from the tuple
of keys only, so two frozen ballots with equal key sequences hash equal even
when the associated (group, utilities) values differ. -/
theorem frozen_hash_ignores_values :
    ∀ f1 f2 : FrozenInteractionBallot,
      f1.entries.map Prod.fst = f2.entries.map Prod.fst →
      FrozenInteractionBallot.hashValue f1 = FrozenInteractionBallot.hashValue f2 := by
  intro f1 f2 hk
  simpa [FrozenInteractionBallot.hashValue] using hk

/-- Witness for C10: equal keys, different values, equal hashes. -/
theorem frozen_hash_ignores_values_witness :
    (FrozenInteractionBallot.mk [(1, ([1], [5]))]).entries
        ≠ (FrozenInteractionBallot.mk [(1, ([1], [99]))]).entries
    ∧ FrozenInteractionBallot.hashValue (FrozenInteractionBallot.mk [(1, ([1], [5]))])
        = FrozenInteractionBallot.hashValue (FrozenInteractionBallot.mk [(1, ([1], [99]))]) := by
  exact ⟨by decide,
    frozen_hash_ignores_values (FrozenInteractionBallot.mk [(1, ([1], [5]))])
      (FrozenInteractionBallot.mk [(1, ([1], [99]))]) (by decide)⟩

/-- C7: invoking any allocation rule of the contract on an empty instance
and empty profile yields the configuration error, never an allocation. -/
theorem rule_invocation_empty_error :
    ∀ select : List Project → List InteractionBallot → List Project,
      rule_invocation [] [] select = Except.error configurationErrorMessage
      ∧ exceptIsOk (rule_invocation [] [] select) = false :=
  fun _ => ⟨rfl, rfl⟩

/-- C9: sorting an interaction profile fails with the unsupported-operation
error whatever key and reverse arguments are given, and never returns a
reordered profile. -/
theorem interaction_profile_sort_error :
    ∀ (p : InteractionProfile) (key : Option (InteractionBallot → Int))
      (rev : Option Bool),
      InteractionProfile.sort p key rev = Except.error sortErrorMessage
      ∧ exceptIsOk (InteractionProfile.sort p key rev) = false :=
  fun _ _ _ => ⟨rfl, rfl⟩

/-- A concrete one-ballot profile used by the C8 counterexample. -/
def exampleProfile : InteractionProfile :=
  InteractionProfile.mk [[(1, ([1], [2]))]] [1] true "InteractionBallot"
    (some 1) (some 2) (some 0) (some 9)

/-- C8 counterexample: reversal goes through the wrapped list.__reversed__,
whose underlying built-in returns a list iterator rather than a plain list,
so the wrapper does not re-wrap it into an InteractionProfile. -/
theorem profile_reversed_not_wrapped :
    isProfileResult (InteractionProfile.reversedOp exampleProfile) = false := rfl

/-- C8 as amended: concatenation, repetition, copy and index-slicing are
re-wrapped into an InteractionProfile carrying the instance, the validation
flag, the ballot type and the four legality bounds of the source profile;
reversal instead passes the bare list iterator through unwrapped. -/
theorem profile_wrap_preserves_metadata :
    ∀ (p q : InteractionProfile) (n start stop : Nat),
      (∃ r, InteractionProfile.add p q = WrappedResult.profile r ∧
        r.ballots = p.ballots ++ q.ballots ∧ sameMetadata r p)
      ∧ (∃ r, InteractionProfile.mul p n = WrappedResult.profile r ∧
        r.ballots = (List.replicate n p.ballots).flatten ∧ sameMetadata r p)
      ∧ (∃ r, InteractionProfile.copy p = WrappedResult.profile r ∧
        r.ballots = p.ballots ∧ sameMetadata r p)
      ∧ (∃ r, InteractionProfile.getitemSlice p start stop = WrappedResult.profile r ∧
        r.ballots = (p.ballots.drop start).take (stop - start) ∧ sameMetadata r p)
      ∧ InteractionProfile.reversedOp p = WrappedResult.iterator p.ballots.reverse := by
  intro p q n start stop
  refine ⟨⟨_, rfl, rfl, ?_⟩, ⟨_, rfl, rfl, ?_⟩, ⟨_, rfl, rfl, ?_⟩, ⟨_, rfl, rfl, ?_⟩, rfl⟩
  all_goals exact ⟨rfl, rfl, rfl, rfl, rfl, rfl, rfl⟩

lemma foldl_add_map {β : Type} (f : β → Int) :
    ∀ (l : List β) (s : Int), l.foldl (fun a e => a + f e) s = s + (l.map f).sum := by
  intro l
  induction l with
  | nil => intro s; simp
  | cons e rest ih => intro s; simp [List.foldl_cons, ih, add_assoc]

lemma interactionAccum_touched (ballot : InteractionBallot) :
    ∀ (bundle : List Project) (c0 : List (InteractionGroup × Nat))
      (m0 : List (InteractionGroup × UtilityVector)),
      bundle.foldl
        (fun acc p =>
          match ballotLookup ballot p with
          | none => acc
          | some (g, u) => (assocBump acc.1 g, assocPut acc.2 g u))
        (c0, m0)
      = ((touchedPairs ballot bundle).foldl (fun c e => assocBump c e.1) c0,
         (touchedPairs ballot bundle).foldl (fun m e => assocPut m e.1 e.2) m0) := by
  intro bundle
  induction bundle with
  | nil => intro c0 m0; rfl
  | cons p rest ih =>
    intro c0 m0
    cases h : ballotLookup ballot p with
    | none =>
      simp only [touchedPairs, List.filterMap_cons, h, List.foldl_cons] at ih ⊢
      exact ih c0 m0
    | some e =>
      obtain ⟨g, u⟩ := e
      simp only [touchedPairs, List.filterMap_cons, h, List.foldl_cons] at ih ⊢
      exact ih (assocBump c0 g) (assocPut m0 g u)

lemma interactionAccum_eq (ballot : InteractionBallot) (bundle : List Project) :
    interactionAccum ballot bundle
      = ((touchedPairs ballot bundle).foldl (fun c e => assocBump c e.1) [],
         (touchedPairs ballot bundle).foldl (fun m e => assocPut m e.1 e.2) []) := by
  unfold interactionAccum
  exact interactionAccum_touched ballot bundle [] []

lemma firstDedup_concat {α : Type} [DecidableEq α] (l : List α) (a : α) :
    firstDedup (l ++ [a]) =
      if a ∈ firstDedup l then firstDedup l else firstDedup l ++ [a] := by
  unfold firstDedup
  rw [List.foldl_append]
  rfl

lemma mem_firstDedup {α : Type} [DecidableEq α] (a : α) :
    ∀ l : List α, a ∈ firstDedup l ↔ a ∈ l := by
  intro l
  induction l using List.reverseRecOn with
  | nil => simp [firstDedup]
  | append_singleton l b ih =>
    rw [firstDedup_concat]
    by_cases hb : b ∈ firstDedup l
    · rw [if_pos hb]
      constructor
      · intro h; exact List.mem_append_left _ (ih.mp h)
      · intro h
        rcases List.mem_append.mp h with h2 | h2
        · exact ih.mpr h2
        · have hab : a = b := by simpa using h2
          exact hab ▸ hb
    · rw [if_neg hb]
      simp [List.mem_append, ih]

lemma nodup_firstDedup {α : Type} [DecidableEq α] :
    ∀ l : List α, (firstDedup l).Nodup := by
  intro l
  induction l using List.reverseRecOn with
  | nil => simp [firstDedup]
  | append_singleton l b ih =>
    rw [firstDedup_concat]
    by_cases hb : b ∈ firstDedup l
    · rw [if_pos hb]; exact ih
    · rw [if_neg hb]
      refine List.Nodup.append ih (List.nodup_singleton b) ?_
      intro x hx hxb
      have hxb2 : x = b := by simpa using hxb
      exact hb (hxb2 ▸ hx)

lemma assocBump_map_not_mem (ds : List InteractionGroup) (c : InteractionGroup → Nat)
    (g : InteractionGroup) (hg : g ∉ ds) :
    assocBump (ds.map fun k => (k, c k)) g = ds.map (fun k => (k, c k)) ++ [(g, 1)] := by
  induction ds with
  | nil => rfl
  | cons d ds ih =>
    have hdg : d ≠ g := fun h => hg (h ▸ List.mem_cons_self d ds)
    simp [assocBump, hdg, ih fun h => hg (List.mem_cons_of_mem d h)]

lemma assocBump_map_mem (ds : List InteractionGroup) (c : InteractionGroup → Nat)
    (g : InteractionGroup) (hg : g ∈ ds) (hnd : ds.Nodup) :
    assocBump (ds.map fun k => (k, c k)) g
      = ds.map fun k => (k, if k = g then c k + 1 else c k) := by
  induction ds with
  | nil => cases hg
  | cons d ds ih =>
    rcases List.mem_cons.mp hg with h | h
    · have hgds : g ∉ ds := by
        rw [h]
        exact (List.nodup_cons.mp hnd).1
      rw [← h]
      simp only [List.map_cons, assocBump, if_pos rfl]
      have htail : ds.map (fun k => (k, c k))
          = ds.map fun k => (k, if k = g then c k + 1 else c k) := by
        refine List.map_congr_left ?_
        intro k hk
        have : k ≠ g := fun he => hgds (he ▸ hk)
        simp [this]
      rw [← htail]
      simp
    · have hdg : d ≠ g := fun he => (List.nodup_cons.mp hnd).1 (he ▸ h)
      simp [assocBump, hdg, ih h (List.nodup_cons.mp hnd).2]

lemma countsFold_eq (gl : List InteractionGroup) :
    gl.foldl assocBump [] = (firstDedup gl).map fun g => (g, gl.count g) := by
  induction gl using List.reverseRecOn with
  | nil => rfl
  | append_singleton gl g ih =>
    rw [List.foldl_append, List.foldl_cons, List.foldl_nil, ih, firstDedup_concat]
    by_cases hg : g ∈ firstDedup gl
    · rw [if_pos hg]
      rw [assocBump_map_mem _ _ g hg (nodup_firstDedup gl)]
      refine List.map_congr_left ?_
      intro k hk
      rw [List.count_append]
      by_cases hkg : k = g
      · subst hkg; simp
      · simp [List.count_cons, hkg]
    · rw [if_neg hg]
      have hgl : g ∉ gl := fun h => hg ((mem_firstDedup g gl).mpr h)
      rw [assocBump_map_not_mem _ _ g fun h => hg h]
      rw [List.map_append]
      congr 1
      · refine List.map_congr_left ?_
        intro k hk
        have hkg : k ≠ g := fun he => hgl (he ▸ (mem_firstDedup k gl).mp hk)
        rw [List.count_append]
        simp [List.count_cons, hkg]
      · have hcz : gl.count g = 0 := List.count_eq_zero.mpr hgl
        simp [List.count_append, hcz]

lemma assocGet_put (m : List (InteractionGroup × UtilityVector))
    (g g' : InteractionGroup) (u : UtilityVector) :
    assocGet (assocPut m g u) g' = if g' = g then some u else assocGet m g' := by
  induction m with
  | nil =>
    by_cases h : g' = g
    · subst h; simp [assocPut, assocGet]
    · have h2 : g ≠ g' := fun he => h he.symm
      simp [assocPut, assocGet, h, h2]
  | cons e rest ih =>
    by_cases he : e.1 = g
    · by_cases hgg : g' = g
      · subst hgg
        simp [assocPut, assocGet, he]
      · have h3 : g ≠ g' := fun hx => hgg hx.symm
        simp [assocPut, assocGet, he, hgg, h3]
    · by_cases heg : e.1 = g'
      · by_cases hgg : g' = g
        · exact absurd (hgg ▸ heg) he
        · simp [assocPut, assocGet, he, heg, hgg]
      · simp [assocPut, assocGet, he, heg, ih]

lemma putFold_get (g : InteractionGroup) (u : UtilityVector) :
    ∀ ps : List (InteractionGroup × UtilityVector),
      (∀ e ∈ ps, e.1 = g → e.2 = u) → (∃ e ∈ ps, e.1 = g) →
      assocGet (ps.foldl (fun m e => assocPut m e.1 e.2) []) g = some u := by
  intro ps
  induction ps using List.reverseRecOn with
  | nil =>
    rintro _ ⟨e, he, _⟩
    cases he
  | append_singleton ps e0 ih =>
    intro hall hex
    rw [List.foldl_append, List.foldl_cons, List.foldl_nil, assocGet_put]
    by_cases hg : g = e0.1
    · rw [if_pos hg]
      have he2 : e0.2 = u := hall e0 (by simp) hg.symm
      rw [he2]
    · rw [if_neg hg]
      refine ih (fun e he h => hall e (List.mem_append_left _ he) h) ?_
      rcases hex with ⟨e, he, hkey⟩
      rcases List.mem_append.mp he with he2 | he2
      · exact ⟨e, he2, hkey⟩
      · have hee : e = e0 := by simpa using he2
        exact absurd (hee ▸ hkey).symm hg

lemma firstDedup_map_fst :
    ∀ ps : List (InteractionGroup × UtilityVector),
      (∀ e ∈ ps, ∀ e2 ∈ ps, e.1 = e2.1 → e.2 = e2.2) →
      firstDedup (ps.map Prod.fst) = (firstDedup ps).map Prod.fst := by
  intro ps
  induction ps using List.reverseRecOn with
  | nil => intro _; rfl
  | append_singleton ps e0 ih =>
    intro hdet
    have hdet2 : ∀ e ∈ ps, ∀ e2 ∈ ps, e.1 = e2.1 → e.2 = e2.2 :=
      fun e he e2 he2 => hdet e (List.mem_append_left _ he) e2 (List.mem_append_left _ he2)
    rw [List.map_append]
    show firstDedup (ps.map Prod.fst ++ [e0.1]) = _
    rw [firstDedup_concat, firstDedup_concat]
    by_cases he : e0 ∈ firstDedup ps
    · have hfst : e0.1 ∈ firstDedup (ps.map Prod.fst) := by
        rw [mem_firstDedup]
        exact List.mem_map_of_mem Prod.fst ((mem_firstDedup _ _).mp he)
      rw [if_pos hfst, if_pos he, ih hdet2]
    · by_cases hfst : e0.1 ∈ firstDedup (ps.map Prod.fst)
      · exfalso
        rw [mem_firstDedup] at hfst
        rcases List.mem_map.mp hfst with ⟨e, he2, hkey⟩
        have hv : e.2 = e0.2 := hdet e (List.mem_append_left _ he2) e0 (by simp) hkey
        have hee : e = e0 := Prod.ext hkey hv
        exact he ((mem_firstDedup _ _).mpr (hee ▸ he2))
      · rw [if_neg hfst, if_neg he, ih hdet2, List.map_append]
        rfl

lemma length_filter_mem_comm (l1 l2 : List Project) (h1 : l1.Nodup) (h2 : l2.Nodup) :
    (l1.filter fun p => decide (p ∈ l2)).length
      = (l2.filter fun p => decide (p ∈ l1)).length := by
  have e1 : (l1.filter fun p => decide (p ∈ l2)).length = (l1.toFinset ∩ l2.toFinset).card := by
    rw [← List.toFinset_card_of_nodup (h1.filter _)]
    congr 1
    rw [List.toFinset_filter]
    ext x
    simp [List.mem_toFinset]
  have e2 : (l2.filter fun p => decide (p ∈ l1)).length = (l2.toFinset ∩ l1.toFinset).card := by
    rw [← List.toFinset_card_of_nodup (h2.filter _)]
    congr 1
    rw [List.toFinset_filter]
    ext x
    simp [List.mem_toFinset]
  rw [e1, e2, Finset.inter_comm]

lemma count_filterMap_groups (ballot : InteractionBallot) (g : InteractionGroup) :
    ∀ bundle : List Project,
      ((touchedPairs ballot bundle).map Prod.fst).count g
        = (bundle.filter fun p =>
            decide ((ballotLookup ballot p).map Prod.fst = some g)).length := by
  intro bundle
  induction bundle with
  | nil => rfl
  | cons p rest ih =>
    unfold touchedPairs at ih ⊢
    cases h : ballotLookup ballot p with
    | none => simp [List.filterMap_cons, h, List.filter_cons, ih]
    | some e =>
      by_cases hg : e.1 = g
      · simp [List.filterMap_cons, h, List.filter_cons, hg, List.count_cons, ih]
      · simp [List.filterMap_cons, h, List.filter_cons, hg, List.count_cons, ih]

lemma wf_lookup (b : InteractionBallot) (hwf : WellFormedBallot b) (p : Project)
    (g : InteractionGroup) (u : UtilityVector) (hp : ballotLookup b p = some (g, u)) :
    p ∈ g ∧ g.Nodup ∧ ∀ q ∈ g, ballotLookup b q = some (g, u) :=
  hwf.2 (p, (g, u)) (ballotLookup_mem b p (g, u) hp)

lemma touched_det (b : InteractionBallot) (B : List Project) (hwf : WellFormedBallot b) :
    ∀ e ∈ touchedPairs b B, ∀ e2 ∈ touchedPairs b B, e.1 = e2.1 → e.2 = e2.2 := by
  intro e he e2 he2 hfst
  obtain ⟨p1, hp1B, hp1⟩ := List.mem_filterMap.mp he
  obtain ⟨p2, hp2B, hp2⟩ := List.mem_filterMap.mp he2
  obtain ⟨g1, u1⟩ := e
  obtain ⟨g2, u2⟩ := e2
  simp only at hfst
  subst hfst
  have h1 := wf_lookup b hwf p1 g1 u1 hp1
  have h2 := wf_lookup b hwf p2 g1 u2 hp2
  have h3 := h1.2.2 p2 h2.1
  rw [hp2] at h3
  have h4 := Option.some.inj h3
  exact (congrArg Prod.snd h4).symm

/-- C1: for every well-formed interaction ballot and duplicate-free bundle,
the Interaction-Cardinality bundle satisfaction equals the specification
formula summing, over every touched ballot group, the first count entries of
the group's vector at count equal to the intersection cardinality of group
and bundle; and on the spec's example ballot with one group of projects 1, 2
and vector (1, 5), the bundle of project 1 scores 1, the full bundle scores
6, and the empty bundle scores 0. -/
theorem outcome_interaction_cardinality_correct :
    (∀ (b : InteractionBallot) (B : List Project),
      WellFormedBallot b → B.Nodup →
      outcome_interaction_cardinality b B = specInteractionBundleSat b B)
    ∧ outcome_interaction_cardinality
        [(1, ([1, 2], [1, 5])), (2, ([1, 2], [1, 5]))] [1] = 1
    ∧ outcome_interaction_cardinality
        [(1, ([1, 2], [1, 5])), (2, ([1, 2], [1, 5]))] [1, 2] = 6
    ∧ outcome_interaction_cardinality
        [(1, ([1, 2], [1, 5])), (2, ([1, 2], [1, 5]))] [] = 0 := by
  refine ⟨?_, by decide, by decide, by decide⟩
  intro b B hwf hnd
  have hdet := touched_det b B hwf
  unfold outcome_interaction_cardinality specInteractionBundleSat
  rw [interactionAccum_eq]
  dsimp only
  rw [← List.foldl_map Prod.fst assocBump]
  rw [countsFold_eq]
  rw [foldl_add_map]
  rw [firstDedup_map_fst (touchedPairs b B) hdet]
  rw [List.map_map, List.map_map]
  simp only [zero_add]
  refine congrArg List.sum (List.map_congr_left ?_)
  intro e he
  simp only [Function.comp]
  have heps : e ∈ touchedPairs b B := (mem_firstDedup e (touchedPairs b B)).mp he
  obtain ⟨g, u⟩ := e
  obtain ⟨p0, hp0B, hp0⟩ := List.mem_filterMap.mp heps
  have hwfe := wf_lookup b hwf p0 g u hp0
  have ha : assocGet
      ((touchedPairs b B).foldl (fun m e => assocPut m e.1 e.2) []) g = some u := by
    refine putFold_get g u (touchedPairs b B) ?_ ⟨(g, u), heps, rfl⟩
    intro e2 he2 hkey
    exact hdet e2 he2 (g, u) heps hkey
  have hcount : ((touchedPairs b B).map Prod.fst).count g = interCount g B := by
    rw [count_filterMap_groups]
    have hfc : (B.filter fun p => decide ((ballotLookup b p).map Prod.fst = some g))
        = B.filter fun p => decide (p ∈ g) := by
      refine List.filter_congr ?_
      intro p hpB
      rw [decide_eq_decide]
      constructor
      · intro hmap
        cases hv : ballotLookup b p with
        | none => rw [hv] at hmap; simp at hmap
        | some e3 =>
          rw [hv] at hmap
          simp only [Option.map] at hmap
          have hg3 : e3.1 = g := Option.some.inj hmap
          have := wf_lookup b hwf p e3.1 e3.2 (by rw [hv])
          exact hg3 ▸ this.1
      · intro hpg
        rw [hwfe.2.2 p hpg]
        rfl
    rw [hfc, length_filter_mem_comm B g hnd hwfe.2.1]
    unfold interCount
    rw [List.dedup_eq_self.mpr (hwfe.2.1.filter _)]
  rw [ha, hcount]
  rfl

/-- Witness for C1 on the spec's example ballot and the full bundle. -/
theorem outcome_interaction_cardinality_correct_witness :
    WellFormedBallot [(1, ([1, 2], [1, 5])), (2, ([1, 2], [1, 5]))]
    ∧ ([1, 2] : List Project).Nodup
    ∧ outcome_interaction_cardinality [(1, ([1, 2], [1, 5])), (2, ([1, 2], [1, 5]))] [1, 2]
        = specInteractionBundleSat [(1, ([1, 2], [1, 5])), (2, ([1, 2], [1, 5]))] [1, 2] := by
  exact ⟨by decide, by decide,
    outcome_interaction_cardinality_correct.1 _ [1, 2] (by decide) (by decide)⟩
